import Mathlib

/-!
Verification of the poker-planning room session engine.

Shallow embedding of the server core of the repository:
* `src/server/security.ts` — input validators (`isValidVote`, `isValidName`,
  `isValidRoomCode`).
* `src/server/storage.ts` — the room record, the Redis-backed store
  (modelled as an association list of entries keyed by room code, each
  carrying its remaining TTL) and the reaper
  (`cleanupInactiveMembers`).
* `src/server/index.ts` — the HTTP route handlers for join / vote /
  reveal / reset, the derived visible state (`getRoomState`), and the
  periodic `cleanup` task.

JavaScript `Map<string, Member>` values are modelled as insertion-ordered
association lists (`List Member` keyed by `Member.id`); `Map.set` replaces
the first entry with the matching key in place, otherwise appends, exactly
as the JS `Map` does. Timestamps (`Date.now()`) are integers in
milliseconds.
-/

namespace PokerPlanning

/-- A vote value as stored in a member record: a JSON number or a JSON
string (`vote: number | string | null` in `storage.ts`; the `null` case is
`Option.none` at the use sites). -/
inductive VoteVal where
  | num : Int → VoteVal
  | str : String → VoteVal
deriving DecidableEq, Repr

/-- `Member` record from `src/server/storage.ts`. -/
structure Member where
  id : String
  name : String
  vote : Option VoteVal
  lastActivity : Int
deriving DecidableEq, Repr

/-- `Room` record from `src/server/storage.ts`; `members` is the
insertion-ordered `Map<string, Member>` keyed by `Member.id`. -/
structure Room where
  code : String
  members : List Member
  showResults : Bool
  createdAt : Int
deriving DecidableEq, Repr

/-- One member of the derived, broadcast `RoomState` (storage.ts). -/
structure VisibleMember where
  id : String
  name : String
  vote : Option VoteVal
deriving DecidableEq, Repr

/-- `RoomState` from `src/server/storage.ts`: the visible projection that
is broadcast to clients. -/
structure RoomState where
  code : String
  members : List VisibleMember
  showResults : Bool
deriving DecidableEq, Repr

/-- JS `String.prototype.toUpperCase()`: uppercase character by
character (defined over the character list so that it evaluates by
kernel reduction). -/
def toUpperStr (s : String) : String := ⟨s.data.map Char.toUpper⟩

/-- JS `String.prototype.toLowerCase()`: lowercase character by
character. -/
def toLowerStr (s : String) : String := ⟨s.data.map Char.toLower⟩

/-! ## Validators (`src/server/security.ts`) -/

/-- `VALID_VOTES = [1, 2, 3, 5, 8, 13, 21, 34, 55, 89, "?", "☕"]`. -/
def VALID_VOTES : List VoteVal :=
  [.num 1, .num 2, .num 3, .num 5, .num 8, .num 13, .num 21, .num 34,
   .num 55, .num 89, .str "?", .str "☕"]

/-- `isValidVote(value) = VALID_VOTES.includes(value) || value === null`. -/
def isValidVote (value : Option VoteVal) : Bool :=
  match value with
  | none => true
  | some v => VALID_VOTES.contains v

/-- `isValidName(name)`: a string of length 1..50. -/
def isValidName (name : String) : Bool :=
  decide (0 < name.length) && decide (name.length ≤ 50)

/-- `isValidRoomCode(code)`: the regex `/^[A-Z0-9]{6}$/`. -/
def isValidRoomCode (code : String) : Bool :=
  decide (code.length = 6) &&
    code.data.all (fun c =>
      (decide ('A' ≤ c) && decide (c ≤ 'Z')) ||
      (decide ('0' ≤ c) && decide (c ≤ '9')))

/-- The room-code generation alphabet of `generateRoomCode`
(`src/server/index.ts`): `"ABCDEFGHJKLMNPQRSTUVWXYZ23456789"`, excluding
the visually confusable `0,O,1,I,L`. Used for generation only. -/
def codeAlphabet : List Char := "ABCDEFGHJKLMNPQRSTUVWXYZ23456789".data

/-! ## The store (`src/server/storage.ts`)

The Redis store holds, per room code, the serialized room together with a
remaining TTL (seconds). We model it as a list of entries; key lookup is
by `room.code` (the Redis key is `"room:" ++ code` and the code is also
stored inside the record, so keying on `room.code` is the same map). -/

/-- `ROOM_TTL = 2 * 60 * 60` seconds. -/
def ROOM_TTL : Int := 2 * 60 * 60

/-- `EMPTY_ROOM_GRACE_PERIOD = 5 * 60 * 1000` milliseconds. -/
def EMPTY_ROOM_GRACE_PERIOD : Int := 5 * 60 * 1000

/-- `INACTIVITY_TIMEOUT = 5 * 60 * 1000` milliseconds (index.ts). -/
def INACTIVITY_TIMEOUT : Int := 5 * 60 * 1000

/-- One Redis entry: the deserialized room and its remaining TTL. -/
structure StoredEntry where
  room : Room
  ttl : Int
deriving DecidableEq, Repr

/-- The whole Redis keyspace for rooms. -/
abbrev Store := List StoredEntry

/-- `RoomStorage.getRoom(code)`: fetch and deserialize, `null` if absent. -/
def getRoom (store : Store) (code : String) : Option Room :=
  (store.find? (fun e => e.room.code == code)).map (·.room)

/-- `RoomStorage.updateRoom(room)`: keep the existing TTL when positive,
else fall back to `ROOM_TTL`, and overwrite the entry (`setex`). A missing
key (Redis `ttl` is negative) is freshly created with the default TTL. -/
def updateRoom (store : Store) (room : Room) : Store :=
  match store with
  | [] => [⟨room, ROOM_TTL⟩]
  | e :: rest =>
    if e.room.code == room.code then
      ⟨room, if 0 < e.ttl then e.ttl else ROOM_TTL⟩ :: rest
    else
      e :: updateRoom rest room

/-! ## The room map operations (`Map` on `room.members`) -/

/-- JS `Map.set(key, v)`: replace the entry with key `key` in place, or
append a new entry. Members are keyed by `Member.id`. -/
def mapSet (l : List Member) (key : String) (v : Member) : List Member :=
  match l with
  | [] => [v]
  | m :: rest => if m.id == key then v :: rest else m :: mapSet rest key v

/-! ## Derived visible state (`getRoomState` in `src/server/index.ts`) -/

/-- `getRoomState(room)`: the projection broadcast to clients.
`vote: room.showResults ? m.vote : m.vote !== null ? "hidden" : null`. -/
def getRoomState (room : Room) : RoomState :=
  { code := room.code
    members := room.members.map (fun m =>
      { id := m.id
        name := m.name
        vote :=
          if room.showResults then m.vote
          else if m.vote ≠ none then some (.str "hidden") else none })
    showResults := room.showResults }

/-! ## Route handlers (`src/server/index.ts`)

Each handler takes the current time, the request inputs and the store, and
returns the response outcome together with the store after the request.
The store component changes exactly when the source calls
`storage.updateRoom`. -/

/-- Outcome of `POST /rooms/:code/join`. -/
inductive JoinResult where
  | invalidCode
  | invalidName
  | roomNotFound
  | nameConflict
  | success (memberId : String) (name : String)
deriving DecidableEq, Repr

/-- Outcome of `POST /rooms/:code/vote`. -/
inductive VoteResult where
  | invalidCode
  | invalidVote
  | roomNotFound
  | unauthenticated
  | notAMember
  | success
deriving DecidableEq, Repr

/-- Outcome of `POST /rooms/:code/reveal` and `/reset`. -/
inductive ActionResult where
  | roomNotFound
  | notAMember
  | success
deriving DecidableEq, Repr

/-- `POST /rooms/:code/join`. `cookieSession` is the `session_id` cookie;
`freshId` stands for the `crypto.randomUUID()` minted when the cookie is
absent. -/
def joinRoute (now : Int) (rawCode : String) (name : String)
    (cookieSession : Option String) (freshId : String) (store : Store) :
    JoinResult × Store :=
  let code := toUpperStr rawCode
  if !isValidRoomCode code then (.invalidCode, store)
  else if !isValidName name then (.invalidName, store)
  else
    match getRoom store code with
    | none => (.roomNotFound, store)
    | some room =>
      if room.members.any (fun m => toLowerStr m.name == toLowerStr name) then
        (.nameConflict, store)
      else
        let sessionId := cookieSession.getD freshId
        let member : Member :=
          { id := sessionId, name := name, vote := none, lastActivity := now }
        let room' := { room with members := mapSet room.members sessionId member }
        (.success sessionId name, updateRoom store room')

/-- `POST /rooms/:code/vote`. -/
def voteRoute (now : Int) (rawCode : String) (cookieSession : Option String)
    (value : Option VoteVal) (store : Store) : VoteResult × Store :=
  let code := toUpperStr rawCode
  if !isValidRoomCode code then (.invalidCode, store)
  else if !isValidVote value then (.invalidVote, store)
  else
    match getRoom store code with
    | none => (.roomNotFound, store)
    | some room =>
      match cookieSession with
      | none => (.unauthenticated, store)
      | some sessionId =>
        if room.members.any (fun m => m.id == sessionId) then
          let room' :=
            { room with
              members := room.members.map (fun m =>
                if m.id == sessionId then
                  { m with vote := value, lastActivity := now }
                else m) }
          (.success, updateRoom store room')
        else (.notAMember, store)

/-- The reveal transition: `room.showResults = true`. -/
def revealRoom (room : Room) : Room := { room with showResults := true }

/-- `POST /rooms/:code/reveal`. No code-format validation in the source. -/
def revealRoute (rawCode : String) (cookieSession : Option String)
    (store : Store) : ActionResult × Store :=
  let code := toUpperStr rawCode
  match getRoom store code with
  | none => (.roomNotFound, store)
  | some room =>
    match cookieSession with
    | none => (.notAMember, store)
    | some sessionId =>
      if room.members.any (fun m => m.id == sessionId) then
        (.success, updateRoom store (revealRoom room))
      else (.notAMember, store)

/-- The reset transition: `room.showResults = false` and every member's
vote set to `null`. -/
def resetRoom (room : Room) : Room :=
  { room with
    showResults := false
    members := room.members.map (fun m => { m with vote := none }) }

/-- `POST /rooms/:code/reset`. -/
def resetRoute (rawCode : String) (cookieSession : Option String)
    (store : Store) : ActionResult × Store :=
  let code := toUpperStr rawCode
  match getRoom store code with
  | none => (.roomNotFound, store)
  | some room =>
    match cookieSession with
    | none => (.notAMember, store)
    | some sessionId =>
      if room.members.any (fun m => m.id == sessionId) then
        (.success, updateRoom store (resetRoom room))
      else (.notAMember, store)

/-! ## The reaper (`RoomStorage.cleanupInactiveMembers` and the `cleanup`
task of `index.ts`) -/

/-- The member-removal loop of `cleanupInactiveMembers`: delete every
member with `now - member.lastActivity > inactivityTimeout`. -/
def cleanupRoomMembers (inactivityTimeout now : Int) (members : List Member) :
    List Member :=
  members.filter (fun m => decide (now - m.lastActivity ≤ inactivityTimeout))

/-- The per-room body of `cleanupInactiveMembers`: `none` when the room is
deleted (empty and past the grace period), otherwise the surviving entry.
An unmodified room is left untouched; a modified one is persisted through
`updateRoom`, which preserves a positive TTL. -/
def cleanupEntry (inactivityTimeout now : Int) (e : StoredEntry) :
    Option StoredEntry :=
  let newMembers := cleanupRoomMembers inactivityTimeout now e.room.members
  let modified := decide (newMembers.length ≠ e.room.members.length)
  let room' := { e.room with members := newMembers }
  if newMembers.isEmpty then
    if now - e.room.createdAt > EMPTY_ROOM_GRACE_PERIOD then none
    else if modified then some ⟨room', if 0 < e.ttl then e.ttl else ROOM_TTL⟩
    else some e
  else if modified then some ⟨room', if 0 < e.ttl then e.ttl else ROOM_TTL⟩
  else some e

/-- `RoomStorage.cleanupInactiveMembers(inactivityTimeout)`: one reaper
sweep over every room key. -/
def cleanupInactiveMembers (inactivityTimeout now : Int) (store : Store) :
    Store :=
  store.filterMap (cleanupEntry inactivityTimeout now)

/-- The periodic `cleanup` task of `index.ts`. It only calls
`storage.cleanupInactiveMembers(INACTIVITY_TIMEOUT)`; `broadcastToRoom` is
never invoked on this path, so the second component — the list of room
codes broadcast during the cycle — is empty. -/
def cleanup (now : Int) (store : Store) : Store × List String :=
  (cleanupInactiveMembers INACTIVITY_TIMEOUT now store, [])

/-! ## Sample data used by the witness theorems -/

/-- A sample revealed room with two members. -/
def sampleRoom : Room :=
  ⟨"ABC234", [⟨"s1", "Alice", some (.num 5), 7⟩, ⟨"s2", "Bob", none, 9⟩],
    true, 0⟩

/-- A sample store holding `sampleRoom` with 100 seconds of TTL left. -/
def sampleStore : Store := [⟨sampleRoom, 100⟩]

/-! ## Helper lemmas about the store and the member map -/

theorem getRoom_code {store : Store} {c : String} {room : Room}
    (h : getRoom store c = some room) : room.code = c := by
  unfold getRoom at h
  cases hf : store.find? (fun e => e.room.code == c) with
  | none => simp [hf] at h
  | some e =>
    have hp := List.find?_some hf
    simp [hf] at h
    rw [← h]
    exact eq_of_beq hp

theorem getRoom_updateRoom (store : Store) (room : Room) :
    getRoom (updateRoom store room) room.code = some room := by
  induction store with
  | nil => simp [updateRoom, getRoom, List.find?]
  | cons e rest ih =>
    cases h : (e.room.code == room.code) with
    | true => simp [updateRoom, h, getRoom, List.find?]
    | false =>
      simp only [updateRoom, h, Bool.false_eq_true, if_false]
      simpa [getRoom, List.find?, h] using ih

theorem mapSet_length_of_mem (l : List Member) (key : String) (v : Member)
    (h : ∃ m ∈ l, m.id = key) : (mapSet l key v).length = l.length := by
  induction l with
  | nil => simp at h
  | cons m rest ih =>
    cases hh : (m.id == key) with
    | true => simp [mapSet, hh]
    | false =>
      simp only [mapSet, hh, Bool.false_eq_true, if_false, List.length_cons]
      rcases h with ⟨m', hm', hid⟩
      rcases List.mem_cons.mp hm' with rfl | hm'
      · have hne : m'.id ≠ key := by simpa using hh
        exact absurd hid hne
      · rw [ih ⟨m', hm', hid⟩]

theorem mapSet_find? (l : List Member) (key : String) (v : Member)
    (hv : v.id = key) :
    (mapSet l key v).find? (fun m => m.id == key) = some v := by
  induction l with
  | nil => simp [mapSet, List.find?, hv]
  | cons m rest ih =>
    cases hh : (m.id == key) with
    | true => simp [mapSet, hh, List.find?, hv]
    | false => simp [mapSet, hh, List.find?, ih]

theorem filter_eq_of_length_eq (p : Member → Bool) (l : List Member)
    (h : (l.filter p).length = l.length) : l.filter p = l := by
  induction l with
  | nil => rfl
  | cons a l ih =>
    cases hp : p a with
    | false =>
      have hle := List.length_filter_le p l
      simp [hp] at h
      omega
    | true =>
      simp only [List.filter_cons, hp, if_true, List.length_cons] at h ⊢
      rw [ih (by omega)]

/-! ## Helper lemmas about the validators and the reaper -/

theorem isValidVote_num_iff (n : Int) :
    isValidVote (some (.num n)) = true ↔
      n ∈ ({1, 2, 3, 5, 8, 13, 21, 34, 55, 89} : Finset ℤ) := by
  simp [isValidVote, VALID_VOTES, List.contains, List.elem_eq_mem,
    Finset.mem_insert]

theorem isValidVote_str_iff (s : String) :
    isValidVote (some (.str s)) = true ↔ s = "?" ∨ s = "☕" := by
  simp [isValidVote, VALID_VOTES, List.contains, List.elem_eq_mem]

theorem cleanupEntry_members (t now : Int) (e e' : StoredEntry)
    (he : cleanupEntry t now e = some e') :
    e'.room.members = cleanupRoomMembers t now e.room.members := by
  simp only [cleanupEntry] at he
  split at he
  · split at he
    · exact Option.noConfusion he
    · split at he
      · cases he
        rfl
      · cases he
        rename_i hmod
        have hlen : (cleanupRoomMembers t now e.room.members).length =
            e.room.members.length := by simpa using hmod
        exact (filter_eq_of_length_eq _ _ hlen).symm
  · split at he
    · cases he
      rfl
    · cases he
      rename_i hmod
      have hlen : (cleanupRoomMembers t now e.room.members).length =
          e.room.members.length := by simpa using hmod
      exact (filter_eq_of_length_eq _ _ hlen).symm

theorem cleanupEntry_ttl (t now : Int) (e e' : StoredEntry) (httl : 0 < e.ttl)
    (he : cleanupEntry t now e = some e') : e'.ttl = e.ttl := by
  simp only [cleanupEntry] at he
  split at he
  · split at he
    · exact Option.noConfusion he
    · split at he
      · cases he
        simp [httl]
      · cases he
        rfl
  · split at he
    · cases he
      simp [httl]
    · cases he
      rfl

theorem cleanupEntry_code (t now : Int) (e e' : StoredEntry)
    (he : cleanupEntry t now e = some e') : e'.room.code = e.room.code := by
  simp only [cleanupEntry] at he
  split at he
  · split at he
    · exact Option.noConfusion he
    · split at he
      · cases he
        rfl
      · cases he
        rfl
  · split at he
    · cases he
      rfl
    · cases he
      rfl

/-! ## Claim theorems -/

/-- Claim C1: the derived visible state never exposes a concrete vote while
`showResults` is false. Each visible member corresponds positionally to a
stored member, keeps its id and name, and its vote field is the real vote
when `showResults` is true, the `"hidden"` marker when the member voted and
results are hidden, and absent otherwise; in particular, with
`showResults = false` every visible vote is either the `"hidden"` marker or
absent. -/
theorem claim1_hidden_until_reveal (room : Room) :
    List.Forall₂
      (fun (m : Member) (vm : VisibleMember) =>
        vm.id = m.id ∧ vm.name = m.name ∧
          vm.vote = (if room.showResults then m.vote
            else if m.vote = none then none else some (.str "hidden")))
      room.members (getRoomState room).members ∧
    (room.showResults = false →
      ∀ vm ∈ (getRoomState room).members,
        vm.vote = some (.str "hidden") ∨ vm.vote = none) := by
  constructor
  · simp only [getRoomState]
    rw [List.forall₂_map_right_iff, List.forall₂_same]
    intro m _
    refine ⟨rfl, rfl, ?_⟩
    cases h : room.showResults <;> cases hv : m.vote <;> simp [h, hv]
  · intro hsr vm hvm
    simp only [getRoomState, List.mem_map] at hvm
    obtain ⟨m, -, rfl⟩ := hvm
    cases hv : m.vote <;> simp [hsr, hv]

theorem claim1_witness :
    List.Forall₂
      (fun (m : Member) (vm : VisibleMember) =>
        vm.id = m.id ∧ vm.name = m.name ∧
          vm.vote = (if (false : Bool) then m.vote
            else if m.vote = none then none else some (.str "hidden")))
      [⟨"s1", "Alice", some (.num 5), 7⟩, ⟨"s2", "Bob", none, 9⟩]
      (getRoomState ⟨"ABC234",
        [⟨"s1", "Alice", some (.num 5), 7⟩, ⟨"s2", "Bob", none, 9⟩],
        false, 0⟩).members ∧
    ((false : Bool) = false →
      ∀ vm ∈ (getRoomState ⟨"ABC234",
          [⟨"s1", "Alice", some (.num 5), 7⟩, ⟨"s2", "Bob", none, 9⟩],
          false, 0⟩).members,
        vm.vote = some (.str "hidden") ∨ vm.vote = none) :=
  claim1_hidden_until_reveal
    ⟨"ABC234", [⟨"s1", "Alice", some (.num 5), 7⟩, ⟨"s2", "Bob", none, 9⟩],
      false, 0⟩

/-- Claim C2 counterexample: the vote validator does not accept exactly
nine positive integers — the closed set of accepted integers is
`{1, 2, 3, 5, 8, 13, 21, 34, 55, 89}`, which has ten elements
(`VALID_VOTES` in `security.ts`). The concrete list of ten pairwise
distinct accepted integers is exhibited explicitly. -/
theorem claim2_counterexample :
    (([1, 2, 3, 5, 8, 13, 21, 34, 55, 89] : List ℤ).all
        (fun n => isValidVote (some (.num n))) = true) ∧
    ([1, 2, 3, 5, 8, 13, 21, 34, 55, 89] : List ℤ).Nodup ∧
    ([1, 2, 3, 5, 8, 13, 21, 34, 55, 89] : List ℤ).length = 10 ∧
    ¬ ∃ S : Finset ℤ, S.card = 9 ∧ (∀ n ∈ S, 0 < n) ∧
      (∀ n : ℤ, isValidVote (some (.num n)) = true ↔ n ∈ S) := by
  refine ⟨by decide, by decide, by decide, ?_⟩
  rintro ⟨S, hcard, -, hiff⟩
  have hS : S = ({1, 2, 3, 5, 8, 13, 21, 34, 55, 89} : Finset ℤ) :=
    Finset.ext fun n => by rw [← hiff n, isValidVote_num_iff]
  rw [hS] at hcard
  exact absurd hcard (by decide)

/-- Claim C2 (amended): the vote validator accepts exactly a closed set of
ten positive integers (1, 2, 3, 5, 8, 13, 21, 34, 55, 89), the "unsure"
symbol `?`, the "coffee/break" symbol, and the absent vote; any other
representable input is rejected, and a well-formed-code vote request with
an invalid value is answered `InvalidVote` with the store untouched —
before the room record is read or written. -/
theorem claim2_vote_closed_set :
    (∃ S : Finset ℤ, S.card = 10 ∧ (∀ n ∈ S, 0 < n) ∧
      (∀ n : ℤ, isValidVote (some (.num n)) = true ↔ n ∈ S)) ∧
    (∀ s : String, isValidVote (some (.str s)) = true ↔ s = "?" ∨ s = "☕") ∧
    isValidVote none = true ∧
    (∀ (now : Int) (rawCode : String) (cs : Option String)
      (v : Option VoteVal) (store : Store),
      isValidRoomCode (toUpperStr rawCode) = true → isValidVote v = false →
      voteRoute now rawCode cs v store = (.invalidVote, store)) := by
  refine ⟨⟨{1, 2, 3, 5, 8, 13, 21, 34, 55, 89}, by decide, by decide,
    isValidVote_num_iff⟩, isValidVote_str_iff, rfl, ?_⟩
  intro now rawCode cs v store hcode hv
  simp [voteRoute, hcode, hv]

theorem claim2_witness :
    voteRoute 0 "ABC234" none (some (.num 4)) sampleStore =
      (.invalidVote, sampleStore) :=
  claim2_vote_closed_set.2.2.2 0 "ABC234" none (some (.num 4)) sampleStore
    (by decide) (by decide)

/-- Claim C3: reset sets `showResults` to false and clears every vote,
leaving the member ids, names and `lastActivity` timestamps untouched; the
route persists exactly the reset room. -/
theorem claim3_reset_frame (rawCode sid : String) (store : Store)
    (room : Room)
    (hget : getRoom store (toUpperStr rawCode) = some room)
    (hmem : room.members.any (fun m => m.id == sid) = true) :
    resetRoute rawCode (some sid) store =
      (.success, updateRoom store (resetRoom room)) ∧
    getRoom (resetRoute rawCode (some sid) store).2 (toUpperStr rawCode) =
      some (resetRoom room) ∧
    (resetRoom room).showResults = false ∧
    (resetRoom room).members.map (·.id) = room.members.map (·.id) ∧
    (resetRoom room).members.map (·.name) = room.members.map (·.name) ∧
    (resetRoom room).members.map (·.lastActivity) =
      room.members.map (·.lastActivity) ∧
    (∀ m ∈ (resetRoom room).members, m.vote = none) := by
  have hroute : resetRoute rawCode (some sid) store =
      (.success, updateRoom store (resetRoom room)) := by
    simp [resetRoute, hget, hmem]
  refine ⟨hroute, ?_, ?_, ?_, ?_, ?_, ?_⟩
  · rw [hroute]
    have hcode : (resetRoom room).code = toUpperStr rawCode := by
      have := getRoom_code hget
      simpa [resetRoom] using this
    simpa [hcode] using getRoom_updateRoom store (resetRoom room)
  · rfl
  · simp [resetRoom]
  · simp [resetRoom]
  · simp [resetRoom]
  · intro m hm
    simp only [resetRoom, List.mem_map] at hm
    obtain ⟨m', -, rfl⟩ := hm
    rfl

theorem claim3_witness :
    resetRoute "ABC234" (some "s1") sampleStore =
      (.success, updateRoom sampleStore (resetRoom sampleRoom)) :=
  (claim3_reset_frame "ABC234" "s1" sampleStore sampleRoom (by decide)
    (by decide)).1

/-- Claim C4: reveal is idempotent — revealing an already-revealed room
leaves the room value literally unchanged, the route succeeds (it is not
an error), and the room looked up after the request is the same room. -/
theorem claim4_reveal_idempotent (rawCode sid : String) (store : Store)
    (room : Room)
    (hget : getRoom store (toUpperStr rawCode) = some room)
    (hsr : room.showResults = true)
    (hmem : room.members.any (fun m => m.id == sid) = true) :
    revealRoom room = room ∧
    revealRoute rawCode (some sid) store = (.success, updateRoom store room) ∧
    getRoom (revealRoute rawCode (some sid) store).2 (toUpperStr rawCode) =
      some room := by
  have hrr : revealRoom room = room := by
    cases room with
    | mk c ms sr ca => cases hsr; rfl
  have hroute : revealRoute rawCode (some sid) store =
      (.success, updateRoom store room) := by
    simp [revealRoute, hget, hmem, hrr]
  refine ⟨hrr, hroute, ?_⟩
  rw [hroute]
  have hcode : room.code = toUpperStr rawCode := getRoom_code hget
  simpa [hcode] using getRoom_updateRoom store room

theorem claim4_witness :
    revealRoom sampleRoom = sampleRoom :=
  (claim4_reveal_idempotent "ABC234" "s2" sampleStore sampleRoom (by decide)
    (by decide) (by decide)).1

/-- Claim C5: a join whose name matches an existing member's name
case-insensitively is rejected with `NameConflict` and the store — hence
the stored room — is returned unchanged. -/
theorem claim5_name_conflict (now : Int) (rawCode name : String)
    (cs : Option String) (fid : String) (store : Store) (room : Room)
    (hcode : isValidRoomCode (toUpperStr rawCode) = true)
    (hname : isValidName name = true)
    (hget : getRoom store (toUpperStr rawCode) = some room)
    (hconf : room.members.any
      (fun m => toLowerStr m.name == toLowerStr name) = true) :
    joinRoute now rawCode name cs fid store = (.nameConflict, store) := by
  simp [joinRoute, hcode, hname, hget, hconf]

theorem claim5_witness :
    joinRoute 42 "abc234" "ALICE" none "f9" sampleStore =
      (.nameConflict, sampleStore) :=
  claim5_name_conflict 42 "abc234" "ALICE" none "f9" sampleStore sampleRoom
    (by decide) (by decide) (by decide) (by decide)

/-- Claim C6 counterexample: a member whose `lastActivity` lies exactly the
inactivity threshold in the past (inactivity duration ≥ threshold) is NOT
removed by the reaper — the comparison in `cleanupInactiveMembers` is
strict (`inactiveDuration > inactivityTimeout`), so the room is swept
unchanged. -/
theorem claim6_counterexample :
    (1000000 : Int) - 700000 ≥ INACTIVITY_TIMEOUT ∧
    cleanupInactiveMembers INACTIVITY_TIMEOUT 1000000
        [⟨⟨"ABC234", [⟨"s1", "Alice", none, 700000⟩], false, 900000⟩, 100⟩] =
      [⟨⟨"ABC234", [⟨"s1", "Alice", none, 700000⟩], false, 900000⟩, 100⟩] := by
  decide

/-- Claim C6 (amended): in every reaper cycle a member is removed exactly
when its inactivity duration strictly exceeds the threshold; a member with
inactivity duration ≤ the threshold (including exactly at the threshold)
is retained, and every room surviving the sweep holds exactly the
retained members. -/
theorem claim6_inactivity_eviction (t now : Int) :
    (∀ (members : List Member) (m : Member),
      m ∈ cleanupRoomMembers t now members ↔
        m ∈ members ∧ now - m.lastActivity ≤ t) ∧
    (∀ e e' : StoredEntry, cleanupEntry t now e = some e' →
      e'.room.members = cleanupRoomMembers t now e.room.members) := by
  constructor
  · intro members m
    simp [cleanupRoomMembers, List.mem_filter]
  · intro e e' he
    exact cleanupEntry_members t now e e' he

theorem claim6_witness :
    (⟨⟨"ABC234", [⟨"s2", "Bob", none, 1000000⟩], false, 0⟩, 100⟩ :
        StoredEntry).room.members =
      cleanupRoomMembers INACTIVITY_TIMEOUT 1000001
        (⟨⟨"ABC234", [⟨"s1", "Alice", none, 700000⟩,
          ⟨"s2", "Bob", none, 1000000⟩], false, 0⟩, 100⟩ :
            StoredEntry).room.members :=
  (claim6_inactivity_eviction INACTIVITY_TIMEOUT 1000001).2
    ⟨⟨"ABC234", [⟨"s1", "Alice", none, 700000⟩,
      ⟨"s2", "Bob", none, 1000000⟩], false, 0⟩, 100⟩
    ⟨⟨"ABC234", [⟨"s2", "Bob", none, 1000000⟩], false, 0⟩, 100⟩
    (by decide)

/-- Claim C7 counterexample: an empty room whose age is exactly the grace
period (age ≥ grace period) is NOT deleted — the comparison in
`cleanupInactiveMembers` is strict (`roomAge > EMPTY_ROOM_GRACE_PERIOD`),
so the entry survives the sweep. -/
theorem claim7_counterexample :
    (1000000 : Int) - 700000 ≥ EMPTY_ROOM_GRACE_PERIOD ∧
    cleanupInactiveMembers INACTIVITY_TIMEOUT 1000000
        [⟨⟨"ABC234", [], false, 700000⟩, 100⟩] =
      [⟨⟨"ABC234", [], false, 700000⟩, 100⟩] := by
  decide

/-- Claim C7 (amended): in every reaper cycle, a room that is empty after
member removal is deleted from the store exactly when its age strictly
exceeds the grace period; at age ≤ the grace period (including exactly at
the grace period) the room is preserved with its code, emptiness and
creation time intact. -/
theorem claim7_grace_period (t now : Int) (e : StoredEntry)
    (h : cleanupRoomMembers t now e.room.members = []) :
    (cleanupInactiveMembers t now [e] = [] ↔
      now - e.room.createdAt > EMPTY_ROOM_GRACE_PERIOD) ∧
    (now - e.room.createdAt ≤ EMPTY_ROOM_GRACE_PERIOD →
      ∃ e', cleanupInactiveMembers t now [e] = [e'] ∧
        e'.room.code = e.room.code ∧ e'.room.members = [] ∧
        e'.room.createdAt = e.room.createdAt) := by
  have hsingle : cleanupInactiveMembers t now [e] =
      match cleanupEntry t now e with
      | none => []
      | some e' => [e'] := by
    simp only [cleanupInactiveMembers, List.filterMap]
    cases cleanupEntry t now e <;> rfl
  by_cases hg : now - e.room.createdAt > EMPTY_ROOM_GRACE_PERIOD
  · have hce : cleanupEntry t now e = none := by
      simp [cleanupEntry, h, hg]
    rw [hsingle, hce]
    exact ⟨by simp [hg], fun hle => absurd hg (not_lt.mpr hle)⟩
  · obtain ⟨e', hce, hprops⟩ : ∃ e', cleanupEntry t now e = some e' ∧
        e'.room.code = e.room.code ∧ e'.room.members = [] ∧
        e'.room.createdAt = e.room.createdAt := by
      by_cases hmod : ([] : List Member).length = e.room.members.length
      · have hnil : e.room.members = [] := by simpa using hmod.symm
        refine ⟨e, ?_, rfl, hnil, rfl⟩
        simp [cleanupEntry, h, hg, hmod.symm]
      · refine ⟨⟨{ e.room with members := [] },
          if 0 < e.ttl then e.ttl else ROOM_TTL⟩, ?_, rfl, rfl, rfl⟩
        have hmod' : e.room.members.length ≠ 0 := fun hh => hmod (by simp [hh])
        simp [cleanupEntry, h, hg]
        intro hh
        exact absurd hh.symm hmod'
    rw [hsingle, hce]
    constructor
    · constructor
      · intro habs
        exact absurd habs (by simp)
      · intro hgt
        exact absurd hgt hg
    · intro _
      exact ⟨e', rfl, hprops⟩

theorem claim7_witness :
    cleanupInactiveMembers INACTIVITY_TIMEOUT 1000001
        [⟨⟨"ABC234", [], false, 700000⟩, 100⟩] = [] ↔
      (1000001 : Int) - (⟨⟨"ABC234", [], false, 700000⟩, 100⟩ :
          StoredEntry).room.createdAt > EMPTY_ROOM_GRACE_PERIOD :=
  (claim7_grace_period INACTIVITY_TIMEOUT 1000001
    ⟨⟨"ABC234", [], false, 700000⟩, 100⟩ (by decide)).1

/-- Claim C8 counterexample: a reaper cycle that removes an inactive member
from a room that remains non-empty persists the updated room (TTL kept)
but triggers NO publish: the `cleanup` task of `index.ts` only calls
`storage.cleanupInactiveMembers` and never `broadcastToRoom`, so the list
of room codes broadcast during the cycle is empty and no subscriber
receives the updated visible state in that cycle. -/
theorem claim8_counterexample :
    cleanup 1000001
        [⟨⟨"ABC234", [⟨"s1", "Alice", none, 700000⟩,
          ⟨"s2", "Bob", none, 1000000⟩], false, 0⟩, 100⟩] =
      ([⟨⟨"ABC234", [⟨"s2", "Bob", none, 1000000⟩], false, 0⟩, 100⟩], []) := by
  decide

/-- Claim C8 (amended): whenever a reaper cycle removes inactive members
from a room and the room remains in the store, the updated room is
persisted with its remaining TTL preserved (when positive) and its code
and surviving members intact — but the reaper triggers no publish at all:
the broadcast list of a cleanup cycle is always empty, so subscribers see
removed members only on the next broadcast-triggering operation. -/
theorem claim8_reaper_no_publish :
    (∀ (now : Int) (store : Store), (cleanup now store).2 = []) ∧
    (∀ (t now : Int) (e e' : StoredEntry), 0 < e.ttl →
      cleanupEntry t now e = some e' →
      e'.ttl = e.ttl ∧ e'.room.code = e.room.code ∧
        e'.room.members = cleanupRoomMembers t now e.room.members) := by
  constructor
  · intro now store
    rfl
  · intro t now e e' httl he
    exact ⟨cleanupEntry_ttl t now e e' httl he,
      cleanupEntry_code t now e e' he, cleanupEntry_members t now e e' he⟩

theorem claim8_witness :
    (⟨⟨"ABC234", [⟨"s2", "Bob", none, 1000000⟩], false, 0⟩, 100⟩ :
        StoredEntry).ttl =
      (⟨⟨"ABC234", [⟨"s1", "Alice", none, 700000⟩,
        ⟨"s2", "Bob", none, 1000000⟩], false, 0⟩, 100⟩ : StoredEntry).ttl :=
  (claim8_reaper_no_publish.2 INACTIVITY_TIMEOUT 1000001
    ⟨⟨"ABC234", [⟨"s1", "Alice", none, 700000⟩,
      ⟨"s2", "Bob", none, 1000000⟩], false, 0⟩, 100⟩
    ⟨⟨"ABC234", [⟨"s2", "Bob", none, 1000000⟩], false, 0⟩, 100⟩
    (by decide) (by decide)).1

/-- Claim C9 counterexample: the room-code format check does NOT exclude
`0,O,1,I,L` — `isValidRoomCode` is the regex `/^[A-Z0-9]{6}$/`, so the
code `"O0I1LA"`, made of excluded characters, passes validation, and a
join request for it proceeds past the format check to the room lookup
instead of being rejected with `InvalidCode`. -/
theorem claim9_counterexample :
    isValidRoomCode "O0I1LA" = true ∧
    joinRoute 0 "O0I1LA" "Alice" none "f1" [] = (.roomNotFound, []) := by
  decide

/-- Claim C9 (amended): the format check applied before join and vote
accepts a 6-character code exactly when every character is an uppercase
letter A–Z or a digit 0–9 (the alphabet excluding `0,O,1,I,L` is used only
by room-code generation, whose every symbol the check accepts); a code
failing the format check is rejected with `InvalidCode` before the store
is read, by both the join and the vote route. -/
theorem claim9_code_validation :
    (∀ code : String, isValidRoomCode code = true ↔
      code.length = 6 ∧ ∀ c ∈ code.data,
        ('A' ≤ c ∧ c ≤ 'Z') ∨ ('0' ≤ c ∧ c ≤ '9')) ∧
    (∀ c ∈ codeAlphabet, ('A' ≤ c ∧ c ≤ 'Z') ∨ ('0' ≤ c ∧ c ≤ '9')) ∧
    (∀ (now : Int) (rawCode name : String) (cs : Option String)
      (fid : String) (store : Store),
      isValidRoomCode (toUpperStr rawCode) = false →
      joinRoute now rawCode name cs fid store = (.invalidCode, store)) ∧
    (∀ (now : Int) (rawCode : String) (cs : Option String)
      (v : Option VoteVal) (store : Store),
      isValidRoomCode (toUpperStr rawCode) = false →
      voteRoute now rawCode cs v store = (.invalidCode, store)) := by
  refine ⟨?_, by decide, ?_, ?_⟩
  · intro code
    simp [isValidRoomCode, List.all_eq_true, Bool.and_eq_true,
      Bool.or_eq_true, decide_eq_true_eq]
  · intro now rawCode name cs fid store hcode
    simp [joinRoute, hcode]
  · intro now rawCode cs v store hcode
    simp [voteRoute, hcode]

theorem claim9_witness :
    joinRoute 0 "AB" "Alice" none "f1" sampleStore =
      (.invalidCode, sampleStore) :=
  claim9_code_validation.2.2.1 0 "AB" "Alice" none "f1" sampleStore
    (by decide)

/-- Claim C10: a join carrying a session id already present in the room,
with a name that conflicts with no existing member case-insensitively,
succeeds and overwrites that member entry in place: same id, new name,
vote reset to absent, `lastActivity` refreshed to now, member count
unchanged, and the updated room is what gets persisted. -/
theorem claim10_rejoin_overwrites (now : Int) (rawCode name sid fid : String)
    (store : Store) (room : Room)
    (hcode : isValidRoomCode (toUpperStr rawCode) = true)
    (hname : isValidName name = true)
    (hget : getRoom store (toUpperStr rawCode) = some room)
    (hnoconf : room.members.any
      (fun m => toLowerStr m.name == toLowerStr name) = false)
    (hmem : ∃ m ∈ room.members, m.id = sid) :
    joinRoute now rawCode name (some sid) fid store =
      (.success sid name,
        updateRoom store
          { room with
            members := mapSet room.members sid ⟨sid, name, none, now⟩ }) ∧
    getRoom (joinRoute now rawCode name (some sid) fid store).2
        (toUpperStr rawCode) =
      some { room with
        members := mapSet room.members sid ⟨sid, name, none, now⟩ } ∧
    (mapSet room.members sid ⟨sid, name, none, now⟩).length =
      room.members.length ∧
    (mapSet room.members sid ⟨sid, name, none, now⟩).find?
        (fun m => m.id == sid) = some ⟨sid, name, none, now⟩ := by
  have hroute : joinRoute now rawCode name (some sid) fid store =
      (.success sid name,
        updateRoom store
          { room with
            members := mapSet room.members sid ⟨sid, name, none, now⟩ }) := by
    simp [joinRoute, hcode, hname, hget, hnoconf]
  refine ⟨hroute, ?_, mapSet_length_of_mem _ _ _ hmem, mapSet_find? _ _ _ rfl⟩
  rw [hroute]
  have hcode' : room.code = toUpperStr rawCode := getRoom_code hget
  simpa [hcode'] using getRoom_updateRoom store
    { room with members := mapSet room.members sid ⟨sid, name, none, now⟩ }

theorem claim10_witness :
    (mapSet sampleRoom.members "s1" ⟨"s1", "Charlie", none, 77⟩).length =
      sampleRoom.members.length :=
  (claim10_rejoin_overwrites 77 "ABC234" "Charlie" "s1" "f1" sampleStore
    sampleRoom (by decide) (by decide) (by decide) (by decide)
    ⟨⟨"s1", "Alice", some (.num 5), 7⟩, by decide, rfl⟩).2.2.1

end PokerPlanning
